import Mathlib

/-!
Shallow embedding of `src/hci/stream.rs` (HCI transport framing layer):
the `Filter` packet/event-filter structure with its 14-byte wire codec,
the `ByteStream` incremental frame reader, the `ByteWrite` frame writer,
and the `HCIWriter::send_command` orchestration.

Machine integers are modelled as `Nat`; the `u32`/`u16` operations that
can wrap are written with explicit masks (`0xFFFFFFFF ^^^ x` for `!x` on
`u32`).  Fallible code returns `Option`/`Except`.  The asynchronous
transport is modelled as explicit state: a list of bytes still available
plus a schedule of per-call transport behaviours (suspend, fail, or
deliver/accept up to `n` bytes); once the schedule is exhausted the
transport behaves cooperatively (delivers/accepts everything it can per
call).

Types referenced by the source but defined outside `src/` (`EventCode`,
`Opcode`, `FULL_COMMAND_MAX_LEN`, `EventPacket`, the `Command`
capability) are modelled from the spec where needed; each such
definition says so in its doc comment.
-/

namespace BTLE

/-- `PacketType` (stream.rs lines 10-16). -/
inductive PacketType
  | Command
  | ACLData
  | SCOData
  | Event
  | Vendor
deriving DecidableEq, Repr

/-- `impl From<PacketType> for u8`/`u32` (stream.rs 17-26): the `#[repr(u8)]`
discriminant values. -/
def PacketType.toNat : PacketType → Nat
  | .Command => 0x01
  | .ACLData => 0x02
  | .SCOData => 0x03
  | .Event => 0x04
  | .Vendor => 0xFF

/-- `TryFrom<u8> for PacketType` (stream.rs 27-40). -/
def PacketType.tryFrom (value : Nat) : Option PacketType :=
  if value = 0x01 then some .Command
  else if value = 0x02 then some .ACLData
  else if value = 0x03 then some .SCOData
  else if value = 0x04 then some .Event
  else if value = 0xFF then some .Vendor
  else none

/-- `StreamError` (stream.rs 41-47).  `HCIPackError` and `ErrorCode` are opaque
payloads from outside `src/`; modelled as `Nat`. -/
inductive StreamError
  | CommandError (e : Nat)
  | BadOpcode
  | IOError
  | HCIError (c : Nat)
deriving DecidableEq, Repr

/-- Modelled from the spec: the `EventCode` enumeration lives outside `src/`.
The spec names the completion code `CommandComplete` and its §8 example uses
byte `0x0E` for it; `CommandStatus` is the adjacent completion code `0x0F`. -/
def EventCode.CommandComplete : Nat := 0x0E

/-- Modelled from the spec: see `EventCode.CommandComplete`. -/
def EventCode.CommandStatus : Nat := 0x0F

/-- `Filter` (stream.rs 61-66).  `event_mask: [u32; 2]` is modelled as the two
words `event_mask0` / `event_mask1`; `Opcode` is an opaque 16-bit value defined
outside `src/`, modelled as a `Nat`. -/
structure Filter where
  type_mask : Nat
  event_mask0 : Nat
  event_mask1 : Nat
  opcode : Nat
deriving DecidableEq, Repr

/-- `FILTER_LEN` (stream.rs 67). -/
def FILTER_LEN : Nat := 14

/-- `Filter::default()` — the derived `Default`: every field zero. -/
def Filter.default : Filter := ⟨0, 0, 0, 0⟩

/-- The `u32`/`u16` typing of the source fields, as a range invariant. -/
def Filter.wf (f : Filter) : Prop :=
  f.type_mask < 2 ^ 32 ∧ f.event_mask0 < 2 ^ 32 ∧ f.event_mask1 < 2 ^ 32 ∧
    f.opcode < 2 ^ 16

/-- `u32::to_le_bytes`. -/
def u32ToLEBytes (n : Nat) : List Nat :=
  [n % 256, n / 256 % 256, n / 65536 % 256, n / 16777216 % 256]

/-- `u16::to_le_bytes`. -/
def u16ToLEBytes (n : Nat) : List Nat :=
  [n % 256, n / 256 % 256]

/-- `u32::from_le_bytes` on a 4-byte slice (the `try_into().expect(..)` in the
source cannot fail there; other shapes default to 0, unreachable under the
length-14 guard). -/
def u32FromLEBytes : List Nat → Nat
  | [b0, b1, b2, b3] => b0 + 256 * b1 + 65536 * b2 + 16777216 * b3
  | _ => 0

/-- Modelled from the spec: `Opcode::unpack` decodes the opaque 16-bit opcode
value from its two little-endian wire bytes (`Opcode` itself is outside
`src/`; the spec treats it as an opaque 16-bit value). -/
def Opcode.unpack : List Nat → Option Nat
  | [b0, b1] => some (b0 + 256 * b1)
  | _ => none

/-- `Filter::pack` (stream.rs 69-76): the source fills the four consecutive
segments `[0,4) [4,8) [8,12) [12,14)` of the 14-byte output with the
little-endian bytes of `type_mask`, `event_mask[0]`, `event_mask[1]` and
`u16::from(opcode)`; the concatenation of the four segments is that array. -/
def Filter.pack (f : Filter) : List Nat :=
  u32ToLEBytes f.type_mask ++ u32ToLEBytes f.event_mask0 ++
    u32ToLEBytes f.event_mask1 ++ u16ToLEBytes f.opcode

/-- `Filter::unpack` (stream.rs 77-92). -/
def Filter.unpack (bytes : List Nat) : Option Filter :=
  if bytes.length ≠ FILTER_LEN then none
  else
    match Opcode.unpack ((bytes.drop 12).take 2) with
    | none => none
    | some op =>
        some { type_mask := u32FromLEBytes (bytes.take 4)
               event_mask0 := u32FromLEBytes ((bytes.drop 4).take 4)
               event_mask1 := u32FromLEBytes ((bytes.drop 8).take 4)
               opcode := op }

/-- `Filter::enable_event` (stream.rs 93-101).  The source takes an
`EventCode`, converts it with `u32::from` and asserts `event < 64`; the numeric
value is taken directly, with the `< 64` bound carried as a hypothesis by the
theorems (out-of-range codes panic in the source). -/
def Filter.enable_event (f : Filter) (event : Nat) : Filter :=
  if event < 32 then { f with event_mask0 := f.event_mask0 ||| (1 <<< event) }
  else { f with event_mask1 := f.event_mask1 ||| (1 <<< (event - 32)) }

/-- `Filter::disable_event` (stream.rs 102-110); `!(1u32 << e)` is
`0xFFFFFFFF ^^^ (1 <<< e)`. -/
def Filter.disable_event (f : Filter) (event : Nat) : Filter :=
  if event < 32 then
    { f with event_mask0 := f.event_mask0 &&& (4294967295 ^^^ (1 <<< event)) }
  else
    { f with event_mask1 := f.event_mask1 &&& (4294967295 ^^^ (1 <<< (event - 32))) }

/-- `Filter::get_event` (stream.rs 111-119). -/
def Filter.get_event (f : Filter) (event : Nat) : Bool :=
  if event < 32 then f.event_mask0 &&& (1 <<< event) != 0
  else f.event_mask1 &&& (1 <<< (event - 32)) != 0

/-- `Filter::enable_type` (stream.rs 120-124); asserts `packet_type < 32`,
true for every discriminant except `Vendor`. -/
def Filter.enable_type (f : Filter) (packet_type : PacketType) : Filter :=
  { f with type_mask := f.type_mask ||| (1 <<< packet_type.toNat) }

/-- `Filter::disable_type` (stream.rs 125-129). -/
def Filter.disable_type (f : Filter) (packet_type : PacketType) : Filter :=
  { f with type_mask := f.type_mask &&& (4294967295 ^^^ (1 <<< packet_type.toNat)) }

/-- `Filter::get_type` (stream.rs 130-134). -/
def Filter.get_type (f : Filter) (packet_type : PacketType) : Bool :=
  f.type_mask &&& (1 <<< packet_type.toNat) != 0

/-! ### The byte transport (read side)

`ByteStream` reads from an `AsyncRead` transport.  A call
`poll_read(cx, buf)` may suspend (`Poll::Pending`), fail (`Err`), or
return `Ok(n)` with `0 ≤ n ≤ buf.len()` bytes copied into `buf`; `n = 0`
signals end of stream.  This is modelled as explicit transport state: the
bytes the transport still has (`data`) plus a schedule of per-call
behaviours (`sched`).  A `deliver n` entry delivers
`min n (min cap data.length)` bytes into a `cap`-byte buffer — zero
exactly when the data is exhausted (or `n = 0`), which is the
end-of-stream report.  Once the schedule is exhausted the transport is
fully cooperative: each call delivers as much as fits.  Every transport
behaviour permitted by the `AsyncRead` contract is a choice of `data` and
`sched`. -/

/-- One scheduled behaviour of a `poll_read` call. -/
inductive ReadAct
  | pending
  | ioerr
  | deliver (n : Nat)
deriving DecidableEq, Repr

/-- State of the read side of the transport. -/
structure RTransport where
  data : List Nat
  sched : List ReadAct
deriving DecidableEq, Repr

/-- Outcome of one `poll_read` call. -/
inductive ReadRes
  | pending (t : RTransport)
  | ioerr (t : RTransport)
  | ok (bs : List Nat) (t : RTransport)
deriving DecidableEq, Repr

/-- One `poll_read` into a buffer with `cap` free bytes. -/
def tRead (t : RTransport) (cap : Nat) : ReadRes :=
  match t.sched with
  | .pending :: r => .pending ⟨t.data, r⟩
  | .ioerr :: r => .ioerr ⟨t.data, r⟩
  | .deliver n :: r =>
      .ok (t.data.take (min (min n cap) t.data.length))
        ⟨t.data.drop (min (min n cap) t.data.length), r⟩
  | [] =>
      .ok (t.data.take (min cap t.data.length))
        ⟨t.data.drop (min cap t.data.length), []⟩

/-- Overwrite `buf` at offset `off` with the bytes `bs` (what `poll_read`
does to the slice it is handed). -/
def writeAt (buf : List Nat) (off : Nat) (bs : List Nat) : List Nat :=
  buf.take off ++ bs ++ buf.drop (off + bs.length)

/-- `EVENT_HEADER_LEN` (stream.rs 189). -/
def EVENT_HEADER_LEN : Nat := 2

/-- Modelled from the spec: `EventPacket` (outside `src/`) is constructed from
an event code and an owned payload buffer. -/
structure EventPacket where
  code : Nat
  parameters : List Nat
deriving DecidableEq, Repr

/-- The read-side state of `ByteStream` (stream.rs 191-196): position cursor,
2-byte header buffer, lazily allocated payload buffer. -/
structure ByteStream where
  pos : Nat
  header_buf : List Nat
  parameters : Option (List Nat)
deriving DecidableEq, Repr

/-- `ByteStream::new` (stream.rs 198-205). -/
def ByteStream.new : ByteStream := ⟨0, [0, 0], none⟩

/-- `ByteStream::clear` (stream.rs 208-212). -/
def ByteStream.clear (_s : ByteStream) : ByteStream := ⟨0, [0, 0], none⟩

/-- Modelled from the spec: `EventCode::try_from` (outside `src/`) succeeds on
exactly the recognized event codes; the spec names `CommandComplete = 0x0E`
and `CommandStatus = 0x0F`.  Theorems that depend only on a byte being
recognized/unrecognized are stated for an arbitrary recognition predicate. -/
def eventCodeValidM (b : Nat) : Bool :=
  b == EventCode.CommandComplete || b == EventCode.CommandStatus

/-- Result of either `while` read loop in `ByteStream::poll_next`:
suspended, end-of-stream (`amount == 0`), transport failure, or target
reached.  In each case the current cursor, the buffer being filled and the
transport state are carried out. -/
inductive LoopOut
  | pend (pos : Nat) (buf : List Nat) (t : RTransport)
  | eof (pos : Nat) (buf : List Nat) (t : RTransport)
  | ioe (pos : Nat) (buf : List Nat) (t : RTransport)
  | done (pos : Nat) (buf : List Nat) (t : RTransport)
deriving DecidableEq, Repr

/-- The read loop of `ByteStream::poll_next` (both `while` loops,
stream.rs 219-235 and 260-275): while `pos < target`, read into the
remaining part of `buf` (which covers positions `[off, target)` of the
frame), return on `Pending` / error / zero-byte read, else advance `pos`
by the reported amount. -/
def readLoop (target off pos : Nat) (buf : List Nat) (t : RTransport) : LoopOut :=
  if h : pos < target then
    match hr : tRead t (target - pos) with
    | .pending t' => .pend pos buf t'
    | .ioerr t' => .ioe pos buf t'
    | .ok bs t' =>
        if hb : bs.length = 0 then .eof pos buf t'
        else readLoop target off (pos + bs.length) (writeAt buf (pos - off) bs) t'
  else .done pos buf t
termination_by (t.sched.length, target - pos)
decreasing_by
  rcases t with ⟨data, sched⟩
  rcases sched with _ | ⟨a, r⟩ <;> simp only [tRead] at hr
  · injection hr with hbs hts
    subst hbs
    subst hts
    dsimp only
    apply Prod.Lex.right
    simp only [List.length_take] at hb ⊢
    omega
  · rcases a with _ | _ | n
    · exact absurd hr (by simp)
    · exact absurd hr (by simp)
    · injection hr with hbs hts
      subst hts
      dsimp only
      simp only [List.length_cons]
      apply Prod.Lex.left
      omega

/-- Result of one `poll_next` call (stream.rs 217-282): `Poll::Pending` or
`Poll::Ready(Option<Result<EventPacket, StreamError>>)`, together with the
reader state and transport state after the call (the source mutates them
through `Pin<&mut Self>`). -/
inductive PollNextOut
  | pending (s : ByteStream) (t : RTransport)
  | ready (r : Option (Except StreamError EventPacket)) (s : ByteStream)
      (t : RTransport)

/-- `ByteStream::poll_next` (stream.rs 217-282), parameterized by the
`EventCode` recognition predicate `valid` (see `eventCodeValidM`).
Header phase: read into `header_buf[pos..2]`.  Then decode byte 0
(`BadOpcode` on failure), take `len` from byte 1, lazily allocate the
`len`-byte payload buffer, read into `buf[pos-2..len]`, and on completion
emit the packet and `take()` the buffer (leaving `pos` untouched — exactly
what the source does). -/
def pollNext (valid : Nat → Bool) (s : ByteStream) (t : RTransport) :
    PollNextOut :=
  match readLoop EVENT_HEADER_LEN 0 s.pos s.header_buf t with
  | .pend pos buf t' => .pending ⟨pos, buf, s.parameters⟩ t'
  | .eof pos buf t' => .ready none ⟨pos, buf, s.parameters⟩ t'
  | .ioe pos buf t' => .ready (some (.error .IOError)) ⟨pos, buf, s.parameters⟩ t'
  | .done pos hbuf t' =>
      let b0 := hbuf.getD 0 0
      if valid b0 then
        let len := hbuf.getD 1 0
        let pbuf := match s.parameters with
          | some b => b
          | none => List.replicate len 0
        match readLoop (len + EVENT_HEADER_LEN) EVENT_HEADER_LEN pos pbuf t' with
        | .pend pos' buf' t'' => .pending ⟨pos', hbuf, some buf'⟩ t''
        | .eof pos' buf' t'' => .ready none ⟨pos', hbuf, some buf'⟩ t''
        | .ioe pos' buf' t'' =>
            .ready (some (.error .IOError)) ⟨pos', hbuf, some buf'⟩ t''
        | .done pos' buf' t'' =>
            .ready (some (.ok ⟨b0, buf'⟩)) ⟨pos', hbuf, none⟩ t''
      else .ready (some (.error .BadOpcode)) ⟨pos, hbuf, s.parameters⟩ t'

/-- A schedule entry describing a read that is either a suspension or a
positive-length delivery (the situations quantified over by the chunking
claims: no transport failure, no forced zero-length delivery). -/
def ReadAct.good : ReadAct → Bool
  | .pending => true
  | .ioerr => false
  | .deliver n => n != 0

/-- All schedule entries are suspensions or positive-length deliveries. -/
def schedOk (sch : List ReadAct) : Bool :=
  sch.all ReadAct.good

/-! ### The byte transport (write side) and `ByteWrite` -/

/-- One scheduled behaviour of a `poll_write` call. -/
inductive WriteAct
  | pending
  | ioerr
  | accept (n : Nat)
deriving DecidableEq, Repr

/-- One scheduled behaviour of a `poll_flush` call. -/
inductive FlushAct
  | pending
  | ioerr
  | flushOk
deriving DecidableEq, Repr

/-- Write-side transport state: schedules of per-call behaviours for
`poll_write` and `poll_flush`; an exhausted schedule behaves cooperatively
(accepts every offered byte / flushes successfully). -/
structure WTransport where
  wsched : List WriteAct
  fsched : List FlushAct
deriving DecidableEq, Repr

/-- Outcome of one `poll_write` call offering `cap` bytes. -/
inductive WriteRes
  | pending (wt : WTransport)
  | ioerr (wt : WTransport)
  | ok (n : Nat) (wt : WTransport)
deriving DecidableEq, Repr

/-- One `poll_write` of a `cap`-byte slice: the transport accepts
`min n cap` bytes (`accept n`), suspends, or fails. -/
def tWrite (wt : WTransport) (cap : Nat) : WriteRes :=
  match wt.wsched with
  | .pending :: r => .pending ⟨r, wt.fsched⟩
  | .ioerr :: r => .ioerr ⟨r, wt.fsched⟩
  | .accept n :: r => .ok (min n cap) ⟨r, wt.fsched⟩
  | [] => .ok cap wt

/-- Outcome of one `poll_flush` call. -/
inductive FlushRes
  | pending (wt : WTransport)
  | ioerr (wt : WTransport)
  | flushOk (wt : WTransport)
deriving DecidableEq, Repr

/-- One `poll_flush`. -/
def tFlush (wt : WTransport) : FlushRes :=
  match wt.fsched with
  | .pending :: r => .pending ⟨wt.wsched, r⟩
  | .ioerr :: r => .ioerr ⟨wt.wsched, r⟩
  | .flushOk :: r => .flushOk ⟨wt.wsched, r⟩
  | [] => .flushOk wt

/-- Modelled from the spec: `FULL_COMMAND_MAX_LEN` (outside `src/`) is the
protocol's maximum full command length.  Its exact value does not matter to
any claim, which are all stated relative to it. -/
def FULL_COMMAND_MAX_LEN : Nat := 260

/-- `ByteWrite` (stream.rs 310-315): owned fixed-capacity buffer, cursor
`pos`, true frame length `len`. -/
structure ByteWrite where
  data : List Nat
  pos : Nat
  len : Nat
deriving DecidableEq, Repr

/-- `ByteWrite::new` (stream.rs 317-326):
`buf[..data.len()].copy_from_slice(data)` into a `FULL_COMMAND_MAX_LEN`
stack array; `none` models the panic of the out-of-range slice when
`data.len() > FULL_COMMAND_MAX_LEN`. -/
def ByteWrite.new (data : List Nat) : Option ByteWrite :=
  if data.length ≤ FULL_COMMAND_MAX_LEN then
    some ⟨data ++ List.replicate (FULL_COMMAND_MAX_LEN - data.length) 0,
      0, data.length⟩
  else none

/-- Result of one `ByteWrite::poll` call (stream.rs 343-371): `Poll::Pending`
or `Ready(Result<(), StreamError>)`, together with the writer and transport
states after the call and how many `poll_write` / `poll_flush` calls the call
made. -/
inductive BWPollOut
  | pending (bw : ByteWrite) (wt : WTransport) (writes flushes : Nat)
  | ready (r : Except StreamError Unit) (bw : ByteWrite) (wt : WTransport)
      (writes flushes : Nat)
deriving Repr

/-- `ByteWrite::poll` (stream.rs 343-371): while `pos < len`, write the
remaining slice `[pos, len)` and advance `pos` by exactly the amount each
write reports (any failure maps to `IOError` and returns immediately); once
`pos = len`, issue one flush, mapping failure to `IOError` and success to
`Ok(())`.  `writes` counts the `poll_write` attempts made by this call. -/
def bwPoll (bw : ByteWrite) (wt : WTransport) (writes : Nat) : BWPollOut :=
  if h : bw.pos < bw.len then
    match hw : tWrite wt (bw.len - bw.pos) with
    | .pending wt' => .pending bw wt' (writes + 1) 0
    | .ioerr wt' => .ready (.error .IOError) bw wt' (writes + 1) 0
    | .ok n wt' => bwPoll ⟨bw.data, bw.pos + n, bw.len⟩ wt' (writes + 1)
  else
    match tFlush wt with
    | .pending wt' => .pending bw wt' writes 1
    | .ioerr wt' => .ready (.error .IOError) bw wt' writes 1
    | .flushOk wt' => .ready (.ok ()) bw wt' writes 1
termination_by (wt.wsched.length, bw.len - bw.pos)
decreasing_by
  rcases wt with ⟨wsched, fsched⟩
  rcases wsched with _ | ⟨a, r⟩ <;> simp only [tWrite] at hw
  · injection hw with hn hwt
    subst hwt
    dsimp only
    apply Prod.Lex.right
    omega
  · rcases a with _ | _ | n
    · exact absurd hw (by simp)
    · exact absurd hw (by simp)
    · injection hw with hn hwt
      subst hwt
      dsimp only
      simp only [List.length_cons]
      apply Prod.Lex.left
      omega

/-! ### `send_command` orchestration -/

/-- Modelled from the spec: the `Command` capability (outside `src/`)
reports a 16-bit opcode and its total wire length `full_len`, and packs
itself into the `full_len`-byte slice it is handed; packing may fail with an
`HCIPackError` (opaque payload, modelled as `Nat`).  `packed` is the outcome:
the slice content after a successful pack, or the error. -/
structure CommandM where
  opcode : Nat
  full_len : Nat
  packed : Except Nat (List Nat)

/-- One transport interaction performed by `send_command`, in order. -/
inductive Action
  | setFilter (f : Filter)
  | clearRead
  | writeBytes (bs : List Nat)
deriving DecidableEq, Repr

/-- `HCIWriter::send_command` (stream.rs 148-165), with the transport's
`set_filter` response abstracted as `sfRes`.  Returns `none` for the panic of
the out-of-range slice `buf[..len]` when `full_len > FULL_COMMAND_MAX_LEN`
(the source slices without a bounds check); otherwise the ordered list of
transport interactions performed together with the result.  On pack success
the filter is built exactly as in the source (default, enable types
Command/Event, enable events CommandStatus/CommandComplete, set opcode) and
installed via `set_filter` before `send_bytes` clears the read state and
hands `buf[..len]` to `ByteWrite::new`.  `written` normalizes the packed
slice content to length `full_len` (a `pack_full` writes only inside the
slice it was given). -/
def send_command (cmd : CommandM)
    (sfRes : Filter → Except StreamError Unit) :
    Option (List Action × Except StreamError Unit) :=
  if cmd.full_len ≤ FULL_COMMAND_MAX_LEN then
    match cmd.packed with
    | .error e => some ([], .error (.CommandError e))
    | .ok bs =>
        let written := (bs ++ List.replicate (cmd.full_len - bs.length) 0).take
          cmd.full_len
        let filter :=
          { ((((Filter.default).enable_type .Command).enable_type
                .Event).enable_event EventCode.CommandStatus).enable_event
              EventCode.CommandComplete with
            opcode := cmd.opcode }
        match sfRes filter with
        | .error e => some ([.setFilter filter], .error e)
        | .ok _ =>
            match ByteWrite.new written with
            | none => none
            | some _ =>
                some ([.setFilter filter, .clearRead, .writeBytes written],
                  .ok ())
  else none

/-- Proof invariant: the reader is in state S0, assembling the header of a
frame with header bytes `hb0 hb1` followed by `payload` on the transport:
`pos` of the 2 header bytes read, no payload buffer allocated. -/
def invA (hb0 hb1 : Nat) (payload : List Nat) (s : ByteStream)
    (t : RTransport) : Prop :=
  s.pos < 2 ∧ s.parameters = none ∧
    s.header_buf = [hb0, hb1].take s.pos ++ List.replicate (2 - s.pos) 0 ∧
    t.data = [hb0, hb1].drop s.pos ++ payload

/-- Proof invariant: state S1, header complete, `pos - 2` of the `hb1`
payload bytes read into the allocated buffer. -/
def invB (hb0 hb1 : Nat) (payload : List Nat) (s : ByteStream)
    (t : RTransport) : Prop :=
  2 ≤ s.pos ∧ s.pos < hb1 + 2 ∧ s.header_buf = [hb0, hb1] ∧
    s.parameters = some (payload.take (s.pos - 2) ++
      List.replicate (hb1 + 2 - s.pos) 0) ∧
    t.data = payload.drop (s.pos - 2)

/-- Drive `poll_next` until it returns `Ready` (what `StreamExt::next`'s
driver does), re-polling on `Pending` from the saved state.  Structural on a
fuel bound; every `Pending` consumes at least one schedule entry, so fuel
`t.sched.length + 1` always suffices (`none` = fuel ran out, unreachable for
that fuel). -/
def runRead (valid : Nat → Bool) :
    Nat → ByteStream → RTransport →
      Option (Option (Except StreamError EventPacket) × ByteStream × RTransport)
  | 0, _, _ => none
  | fuel + 1, s, t =>
      match pollNext valid s t with
      | .ready r s' t' => some (r, s', t')
      | .pending s' t' => runRead valid fuel s' t'

end BTLE

namespace BTLE

/-! ### Bit-level helper lemmas -/

theorem and_one_shiftLeft_ne_zero (x i : Nat) :
    (x &&& (1 <<< i) != 0) = x.testBit i := by
  rw [Nat.one_shiftLeft]
  rcases h : x.testBit i with _ | _ <;>
    simp [Nat.and_two_pow, h, Nat.two_pow_pos]

theorem testBit_u32max {i : Nat} (hi : i < 32) :
    Nat.testBit 4294967295 i = true := by
  rw [show (4294967295 : Nat) = 2 ^ 32 - 1 by norm_num,
    Nat.testBit_two_pow_sub_one]
  simp [hi]

theorem testBit_or_pow_self (m i : Nat) : (m ||| 1 <<< i).testBit i = true := by
  rw [Nat.one_shiftLeft]
  simp [Nat.testBit_lor, Nat.testBit_two_pow_self]

theorem testBit_or_pow_other (m : Nat) {i j : Nat} (h : j ≠ i) :
    (m ||| 1 <<< i).testBit j = m.testBit j := by
  rw [Nat.one_shiftLeft]
  simp [Nat.testBit_lor, Nat.testBit_two_pow_of_ne (fun he => h he.symm)]

theorem testBit_clear_pow_self (m i : Nat) (hi : i < 32) :
    (m &&& (4294967295 ^^^ (1 <<< i))).testBit i = false := by
  rw [Nat.one_shiftLeft]
  simp [Nat.testBit_land, Nat.testBit_xor, testBit_u32max hi,
    Nat.testBit_two_pow_self]

theorem testBit_clear_pow_other (m : Nat) {i j : Nat} (hj : j < 32) (h : j ≠ i) :
    (m &&& (4294967295 ^^^ (1 <<< i))).testBit j = m.testBit j := by
  rw [Nat.one_shiftLeft]
  simp [Nat.testBit_land, Nat.testBit_xor, testBit_u32max hj,
    Nat.testBit_two_pow_of_ne (fun he => h he.symm)]

/-- `Filter.pack` written out: the 14 wire bytes. -/
theorem Filter.pack_eq (f : Filter) :
    f.pack = [f.type_mask % 256, f.type_mask / 256 % 256,
      f.type_mask / 65536 % 256, f.type_mask / 16777216 % 256,
      f.event_mask0 % 256, f.event_mask0 / 256 % 256,
      f.event_mask0 / 65536 % 256, f.event_mask0 / 16777216 % 256,
      f.event_mask1 % 256, f.event_mask1 / 256 % 256,
      f.event_mask1 / 65536 % 256, f.event_mask1 / 16777216 % 256,
      f.opcode % 256, f.opcode / 256 % 256] := rfl

/-- `Filter.unpack` evaluated on an explicit 14-byte list. -/
theorem Filter.unpack_explicit
    (b0 b1 b2 b3 b4 b5 b6 b7 b8 b9 b10 b11 b12 b13 : Nat) :
    Filter.unpack [b0, b1, b2, b3, b4, b5, b6, b7, b8, b9, b10, b11, b12, b13] =
      some ⟨b0 + 256 * b1 + 65536 * b2 + 16777216 * b3,
        b4 + 256 * b5 + 65536 * b6 + 16777216 * b7,
        b8 + 256 * b9 + 65536 * b10 + 16777216 * b11,
        b12 + 256 * b13⟩ := rfl

/-! ### Claim theorems: Filter -/

/-- C7: for every well-typed `Filter` value (fields in `u32`/`u16` range),
`Filter::unpack` applied to the 14-byte output of `Filter::pack` returns
`some` of an equal `Filter`. -/
theorem C7_filter_pack_unpack_roundtrip (f : Filter) (h : f.wf) :
    Filter.unpack f.pack = some f := by
  obtain ⟨h1, h2, h3, h4⟩ := h
  obtain ⟨tm, e0, e1, op⟩ := f
  dsimp only at h1 h2 h3 h4
  rw [Filter.pack_eq, Filter.unpack_explicit]
  simp only [Option.some.injEq, Filter.mk.injEq]
  refine ⟨?_, ?_, ?_, ?_⟩ <;> dsimp only <;> omega

/-- C7 witness: the round-trip at a concrete filter value. -/
theorem C7_filter_pack_unpack_roundtrip_witness :
    Filter.wf ⟨0x12345678, 0xDEADBEEF, 0x0BADF00D, 0x0C03⟩ ∧
      Filter.unpack (Filter.pack ⟨0x12345678, 0xDEADBEEF, 0x0BADF00D, 0x0C03⟩) =
        some ⟨0x12345678, 0xDEADBEEF, 0x0BADF00D, 0x0C03⟩ :=
  ⟨by constructor <;> norm_num [Filter.wf],
   C7_filter_pack_unpack_roundtrip _ (by constructor <;> norm_num [Filter.wf])⟩

/-- C8: for every `Filter` and event codes `e ≠ e'` below 64,
`enable_event e` makes `get_event e` true, a following `disable_event e` makes
it false, and in both cases `get_event e'` (including codes across the word
boundary at 32) and the `type_mask` and `opcode` fields are unchanged. -/
theorem C8_event_mask_toggle (f : Filter) (e e' : Nat) (he : e < 64)
    (he' : e' < 64) (hne : e' ≠ e) :
    (f.enable_event e).get_event e = true ∧
    ((f.enable_event e).disable_event e).get_event e = false ∧
    (f.enable_event e).get_event e' = f.get_event e' ∧
    ((f.enable_event e).disable_event e).get_event e' = f.get_event e' ∧
    (f.enable_event e).type_mask = f.type_mask ∧
    (f.enable_event e).opcode = f.opcode ∧
    ((f.enable_event e).disable_event e).type_mask = f.type_mask ∧
    ((f.enable_event e).disable_event e).opcode = f.opcode := by
  have hA : (f.enable_event e).get_event e = true := by
    by_cases h32 : e < 32 <;>
      simp only [Filter.enable_event, Filter.get_event, h32, if_true, if_false,
        ite_true, ite_false, and_one_shiftLeft_ne_zero] <;>
      exact testBit_or_pow_self _ _
  have hB : ((f.enable_event e).disable_event e).get_event e = false := by
    by_cases h32 : e < 32 <;>
      simp only [Filter.enable_event, Filter.disable_event, Filter.get_event,
        h32, if_true, if_false, ite_true, ite_false,
        and_one_shiftLeft_ne_zero] <;>
      exact testBit_clear_pow_self _ _ (by omega)
  have hC : (f.enable_event e).get_event e' = f.get_event e' := by
    by_cases h32 : e < 32 <;> by_cases h32' : e' < 32 <;>
      simp only [Filter.enable_event, Filter.get_event, h32, h32', if_true,
        if_false, ite_true, ite_false, and_one_shiftLeft_ne_zero] <;>
      first
        | rfl
        | exact testBit_or_pow_other _ (by omega)
  have hD : ((f.enable_event e).disable_event e).get_event e' = f.get_event e' := by
    by_cases h32 : e < 32 <;> by_cases h32' : e' < 32 <;>
      simp only [Filter.enable_event, Filter.disable_event, Filter.get_event,
        h32, h32', if_true, if_false, ite_true, ite_false,
        and_one_shiftLeft_ne_zero] <;>
      first
        | rfl
        | rw [testBit_clear_pow_other _ (by omega) (by omega),
            testBit_or_pow_other _ (by omega)]
  have hE : (f.enable_event e).type_mask = f.type_mask ∧
      (f.enable_event e).opcode = f.opcode := by
    by_cases h32 : e < 32 <;>
      simp [Filter.enable_event, h32]
  have hF : ((f.enable_event e).disable_event e).type_mask = f.type_mask ∧
      ((f.enable_event e).disable_event e).opcode = f.opcode := by
    by_cases h32 : e < 32 <;>
      simp [Filter.enable_event, Filter.disable_event, h32]
  exact ⟨hA, hB, hC, hD, hE.1, hE.2, hF.1, hF.2⟩

/-- C8 witness: toggling event 40 leaves event 0 untouched (concrete instance
across the word boundary). -/
theorem C8_event_mask_toggle_witness :
    ((Filter.default.enable_event 0).enable_event 40).get_event 40 = true ∧
    (((Filter.default.enable_event 0).enable_event 40).disable_event 40).get_event 40 = false ∧
    (((Filter.default.enable_event 0).enable_event 40).disable_event 40).get_event 0 =
      ((Filter.default.enable_event 0)).get_event 0 := by
  have h := C8_event_mask_toggle (Filter.default.enable_event 0) 40 0
    (by norm_num) (by norm_num) (by norm_num)
  exact ⟨h.1, h.2.1, h.2.2.2.1⟩

/-- C9: `Filter::pack` produces exactly 14 bytes; bytes 0-3 are the
little-endian `type_mask`, bytes 4-7 event-mask word 0, bytes 8-11 event-mask
word 1, bytes 12-13 the 16-bit opcode (each segment decodes back to its field
for well-typed filters). -/
theorem C9_filter_pack_layout (f : Filter) (h : f.wf) :
    f.pack.length = 14 ∧
    f.pack.take 4 = u32ToLEBytes f.type_mask ∧
    (f.pack.drop 4).take 4 = u32ToLEBytes f.event_mask0 ∧
    (f.pack.drop 8).take 4 = u32ToLEBytes f.event_mask1 ∧
    f.pack.drop 12 = u16ToLEBytes f.opcode ∧
    u32FromLEBytes (f.pack.take 4) = f.type_mask ∧
    u32FromLEBytes ((f.pack.drop 4).take 4) = f.event_mask0 ∧
    u32FromLEBytes ((f.pack.drop 8).take 4) = f.event_mask1 ∧
    (f.pack.drop 12).headD 0 + 256 * ((f.pack.drop 12).getD 1 0) = f.opcode := by
  obtain ⟨h1, h2, h3, h4⟩ := h
  obtain ⟨tm, e0, e1, op⟩ := f
  dsimp only at h1 h2 h3 h4
  rw [Filter.pack_eq]
  refine ⟨rfl, rfl, rfl, rfl, rfl, ?_, ?_, ?_, ?_⟩ <;>
    simp only [List.take, List.drop, List.headD, List.getD, List.get?,
      Option.getD, u32FromLEBytes, u32ToLEBytes, u16ToLEBytes] <;> omega

/-! ### Frame-reader lemmas -/

theorem readLoop_done (target off pos : Nat) (buf : List Nat) (t : RTransport)
    (h : ¬pos < target) : readLoop target off pos buf t = .done pos buf t := by
  rw [readLoop]
  simp [h]

theorem readLoop_pending (target off pos : Nat) (buf data : List Nat)
    (r : List ReadAct) (h : pos < target) :
    readLoop target off pos buf ⟨data, .pending :: r⟩ = .pend pos buf ⟨data, r⟩ := by
  rw [readLoop]
  simp [h, tRead]

theorem readLoop_ioerr (target off pos : Nat) (buf data : List Nat)
    (r : List ReadAct) (h : pos < target) :
    readLoop target off pos buf ⟨data, .ioerr :: r⟩ = .ioe pos buf ⟨data, r⟩ := by
  rw [readLoop]
  simp [h, tRead]

theorem readLoop_deliver_eof (target off pos n : Nat) (buf data : List Nat)
    (r : List ReadAct) (h : pos < target)
    (hd : min (min n (target - pos)) data.length = 0) :
    readLoop target off pos buf ⟨data, .deliver n :: r⟩ = .eof pos buf ⟨data, r⟩ := by
  rw [readLoop]
  simp [h, tRead, hd]

theorem readLoop_deliver_step (target off pos n : Nat) (buf data : List Nat)
    (r : List ReadAct) (h : pos < target)
    (hd : 0 < min (min n (target - pos)) data.length) :
    readLoop target off pos buf ⟨data, .deliver n :: r⟩ =
      readLoop target off (pos + min (min n (target - pos)) data.length)
        (writeAt buf (pos - off) (data.take (min (min n (target - pos)) data.length)))
        ⟨data.drop (min (min n (target - pos)) data.length), r⟩ := by
  conv_lhs => rw [readLoop]
  have hlen : (data.take (min (min n (target - pos)) data.length)).length =
      min (min n (target - pos)) data.length := by
    simp only [List.length_take]
    omega
  simp only [h, dif_pos, tRead, hlen]
  rw [dif_neg (by omega)]

theorem readLoop_coop_eof (target off pos : Nat) (buf data : List Nat)
    (h : pos < target) (hd : min (target - pos) data.length = 0) :
    readLoop target off pos buf ⟨data, []⟩ = .eof pos buf ⟨data, []⟩ := by
  rw [readLoop]
  simp [h, tRead, hd]

theorem readLoop_coop_step (target off pos : Nat) (buf data : List Nat)
    (h : pos < target) (hd : 0 < min (target - pos) data.length) :
    readLoop target off pos buf ⟨data, []⟩ =
      readLoop target off (pos + min (target - pos) data.length)
        (writeAt buf (pos - off) (data.take (min (target - pos) data.length)))
        ⟨data.drop (min (target - pos) data.length), []⟩ := by
  conv_lhs => rw [readLoop]
  have hlen : (data.take (min (target - pos) data.length)).length =
      min (target - pos) data.length := by
    simp only [List.length_take]
    omega
  simp only [h, dif_pos, tRead, hlen]
  rw [dif_neg (by omega)]

/-- Writing the next `d` source bytes at the cursor extends the
`filled-prefix ++ zeros` shape of a partially filled buffer. -/
theorem fill_step (src : List Nat) (k d : Nat) (h : k + d ≤ src.length) :
    writeAt (src.take k ++ List.replicate (src.length - k) 0) k
      ((src.drop k).take d) =
      src.take (k + d) ++ List.replicate (src.length - (k + d)) 0 := by
  have h1 : (src.take k).length = k := by
    simp [List.length_take]
    omega
  have h2 : ((src.drop k).take d).length = d := by
    simp [List.length_take]
    omega
  unfold writeAt
  rw [h2]
  have e2 : (src.take k ++ List.replicate (src.length - k) 0).drop (k + d) =
      List.replicate (src.length - (k + d)) 0 := by
    have h4 : (src.take k).drop (k + d) = [] :=
      List.drop_of_length_le (by omega)
    rw [List.drop_append_eq_append_drop, h1, h4, List.drop_replicate]
    have h3 : src.length - k - (k + d - k) = src.length - (k + d) := by omega
    rw [h3, List.nil_append]
  rw [List.take_left' h1, e2, List.take_add, List.append_assoc]

theorem schedOk_cons {a : ReadAct} {r : List ReadAct}
    (h : schedOk (a :: r) = true) :
    ReadAct.good a = true ∧ schedOk r = true := by
  simp only [schedOk, List.all_cons, Bool.and_eq_true] at h
  exact h

/-- Main run lemma for one `readLoop` call: with a schedule of suspensions and
positive deliveries, and the transport holding exactly the unread part of the
current `src` section followed by `extra`, the loop either completes the
section (`done` at `target` with the fully assembled `src` in the buffer and
exactly `extra` left in the transport) or suspends with the same invariant
re-established at the new cursor and at least one schedule entry consumed. -/
theorem readLoop_run (target off : Nat) (src extra : List Nat)
    (hoff : off ≤ target) (hsrc : src.length = target - off) :
    ∀ pos buf t, schedOk t.sched = true → off ≤ pos → pos ≤ target →
      buf = src.take (pos - off) ++ List.replicate (target - pos) 0 →
      t.data = src.drop (pos - off) ++ extra →
      (∃ sch2, schedOk sch2 = true ∧ sch2.length ≤ t.sched.length ∧
        readLoop target off pos buf t = .done target src ⟨extra, sch2⟩) ∨
      (∃ pos2 sch2, schedOk sch2 = true ∧ sch2.length < t.sched.length ∧
        off ≤ pos2 ∧ pos2 < target ∧
        readLoop target off pos buf t =
          .pend pos2 (src.take (pos2 - off) ++ List.replicate (target - pos2) 0)
            ⟨src.drop (pos2 - off) ++ extra, sch2⟩) := by
  intro pos buf t
  induction pos, buf, t using readLoop.induct target off with
  | case1 pos buf t hlt t' hr =>
      intro hok hop hpt hbuf hdata
      rcases t with ⟨data, sched⟩
      dsimp only at hdata hok ⊢
      rcases sched with _ | ⟨a, r⟩
      · simp [tRead] at hr
      · rcases a with _ | _ | n
        · simp only [tRead] at hr
          injection hr with hr'
          refine Or.inr ⟨pos, r, (schedOk_cons hok).2, by simp, hop, hlt, ?_⟩
          rw [readLoop_pending _ _ _ _ _ _ hlt, hbuf, ← hdata]
        · simp only [tRead] at hr
          injection hr
        · simp only [tRead] at hr
          injection hr
  | case2 pos buf t hlt t' hr =>
      intro hok hop hpt hbuf hdata
      rcases t with ⟨data, sched⟩
      dsimp only at hok
      rcases sched with _ | ⟨a, r⟩
      · simp [tRead] at hr
      · rcases a with _ | _ | n
        · simp only [tRead] at hr
          injection hr
        · have := (schedOk_cons hok).1
          simp [ReadAct.good] at this
        · simp only [tRead] at hr
          injection hr
  | case3 pos buf t hlt bs t' hr hz =>
      intro hok hop hpt hbuf hdata
      rcases t with ⟨data, sched⟩
      dsimp only at hdata hok
      have hdroplen : (src.drop (pos - off)).length = target - pos := by
        simp only [List.length_drop]
        omega
      have hdlen : data.length = (target - pos) + extra.length := by
        rw [hdata]
        simp only [List.length_append]
        omega
      rcases sched with _ | ⟨a, r⟩
      · simp only [tRead] at hr
        injection hr with hbs ht'
        rw [← hbs] at hz
        simp only [List.length_take] at hz
        omega
      · rcases a with _ | _ | n
        · simp only [tRead] at hr
          injection hr
        · simp only [tRead] at hr
          injection hr
        · simp only [tRead] at hr
          injection hr with hbs ht'
          have hgood := (schedOk_cons hok).1
          simp only [ReadAct.good, ne_eq, bne_iff_ne] at hgood
          rw [← hbs] at hz
          simp only [List.length_take] at hz
          omega
  | case4 pos buf t hlt bs t' hr hnz ih =>
      intro hok hop hpt hbuf hdata
      rcases t with ⟨data, sched⟩
      dsimp only at hdata hok ⊢
      have hdroplen : (src.drop (pos - off)).length = target - pos := by
        simp only [List.length_drop]
        omega
      have hdlen : data.length = (target - pos) + extra.length := by
        rw [hdata]
        simp only [List.length_append]
        omega
      rcases sched with _ | ⟨a, r⟩
      · -- schedule exhausted: the cooperative read delivers the whole rest of
        -- the section in one step, completing the loop
        simp only [tRead] at hr
        injection hr with hbs ht'
        have hdceq : min (target - pos) data.length = target - pos := by omega
        have hdcpos : 0 < min (target - pos) data.length := by omega
        left
        refine ⟨[], rfl, by simp, ?_⟩
        rw [readLoop_coop_step _ _ _ _ _ hlt hdcpos, hdceq,
          show pos + (target - pos) = target by omega,
          readLoop_done _ _ _ _ _ (by omega)]
        have hbseq : data.take (target - pos) =
            (src.drop (pos - off)).take (target - pos) := by
          rw [hdata, List.take_append_of_le_length (by omega)]
        have hbufeq : writeAt buf (pos - off) (data.take (target - pos)) = src := by
          rw [hbuf, hbseq,
            show target - pos = src.length - (pos - off) by omega]
          rw [fill_step src (pos - off) (src.length - (pos - off)) (by omega)]
          rw [show pos - off + (src.length - (pos - off)) = src.length by omega]
          simp [List.take_length]
        have hdataeq : data.drop (target - pos) = extra := by
          rw [hdata, List.drop_append_of_le_length (by omega),
            List.drop_of_length_le (by omega), List.nil_append]
        rw [hbufeq, hdataeq]
      · rcases a with _ | _ | n
        · simp only [tRead] at hr
          injection hr
        · simp only [tRead] at hr
          injection hr
        · -- a positive-length delivery: one step, then the inductive
          -- hypothesis at the advanced cursor
          simp only [tRead] at hr
          injection hr with hbs ht'
          obtain ⟨hgood, hokr⟩ := schedOk_cons hok
          simp only [ReadAct.good, ne_eq, bne_iff_ne] at hgood
          have hblen : (data.take (min (min n (target - pos)) data.length)).length
              = min (min n (target - pos)) data.length := by
            simp only [List.length_take]
            omega
          have hdpos : 0 < min (min n (target - pos)) data.length := by
            rw [← hbs] at hnz
            rw [hblen] at hnz
            omega
          have hbs' : data.take (min (min n (target - pos)) data.length) =
              (src.drop (pos - off)).take (min (min n (target - pos)) data.length) := by
            rw [hdata, List.take_append_of_le_length (by omega)]
          have hbuf' : writeAt buf (pos - off)
                (data.take (min (min n (target - pos)) data.length)) =
              src.take (pos + min (min n (target - pos)) data.length - off) ++
                List.replicate (target -
                  (pos + min (min n (target - pos)) data.length)) 0 := by
            have e := fill_step src (pos - off)
              (min (min n (target - pos)) data.length) (by omega)
            rw [show src.length - (pos - off) = target - pos by omega] at e
            rw [show pos - off + min (min n (target - pos)) data.length =
              pos + min (min n (target - pos)) data.length - off by omega] at e
            rw [show src.length -
                (pos + min (min n (target - pos)) data.length - off) =
              target - (pos + min (min n (target - pos)) data.length) by omega] at e
            rw [hbuf, hbs', e]
          have hdata' : data.drop (min (min n (target - pos)) data.length) =
              src.drop (pos + min (min n (target - pos)) data.length - off) ++
                extra := by
            rw [hdata, List.drop_append_of_le_length (by omega), List.drop_drop]
            congr 2
            omega
          rw [← hbs, ← ht'] at ih
          rw [← hbs] at hnz
          simp only [hblen] at ih
          have hcon := ih hokr (by omega) (by omega) hbuf' hdata'
          rw [readLoop_deliver_step _ _ _ _ _ _ _ hlt hdpos]
          rcases hcon with ⟨sch2, hok2, hlen2, heq⟩ |
            ⟨pos2, sch2, hok2, hlen2, hop2, hpt2, heq⟩
          · left
            exact ⟨sch2, hok2, by simp only [List.length_cons]; omega, heq⟩
          · right
            exact ⟨pos2, sch2, hok2, by simp only [List.length_cons]; omega,
              hop2, hpt2, heq⟩
  | case5 pos buf t hnlt =>
      intro hok hop hpt hbuf hdata
      rcases t with ⟨data, sched⟩
      dsimp only at hdata hok ⊢
      have hpe : pos = target := by omega
      subst hpe
      left
      refine ⟨sched, hok, le_refl _, ?_⟩
      rw [readLoop_done _ _ _ _ _ hnlt]
      have hbufeq : buf = src := by
        rw [hbuf, show pos - off = src.length by omega]
        simp [List.take_length]
      have hdataeq : data = extra := by
        rw [hdata, List.drop_of_length_le (by omega), List.nil_append]
      rw [hbufeq, hdataeq]

/-- One `poll_next` from state S0 on a frame with a recognized event code:
either the whole frame is assembled and emitted, or the call suspends with
the S0/S1 invariant re-established and schedule strictly consumed. -/
theorem pollNext_stepA (valid : Nat → Bool) (hb0 hb1 : Nat) (payload : List Nat)
    (hv : valid hb0 = true) (hlen : payload.length = hb1)
    (s : ByteStream) (t : RTransport) (hok : schedOk t.sched = true)
    (hA : invA hb0 hb1 payload s t) :
    (∃ sch2, schedOk sch2 = true ∧ sch2.length ≤ t.sched.length ∧
      pollNext valid s t = .ready (some (.ok ⟨hb0, payload⟩))
        ⟨hb1 + 2, [hb0, hb1], none⟩ ⟨[], sch2⟩) ∨
    (∃ s2 t2, schedOk t2.sched = true ∧ t2.sched.length < t.sched.length ∧
      (invA hb0 hb1 payload s2 t2 ∨ invB hb0 hb1 payload s2 t2) ∧
      pollNext valid s t = .pending s2 t2) := by
  obtain ⟨hpos, hpar, hhdr, hdat⟩ := hA
  rcases s with ⟨pos, hbuf, params⟩
  dsimp only at hpos hpar hhdr hdat
  subst hpar
  have hrun := readLoop_run 2 0 [hb0, hb1] payload (by omega) (by simp)
    pos hbuf t hok (by omega) (by omega)
    (by rw [hhdr]; simp)
    (by rw [hdat]; simp)
  rcases hrun with ⟨sch1, hok1, hle1, hdone⟩ |
    ⟨pos2, sch1, hok1, hlt1, _, hp2, hpend⟩
  · -- header completed within this call; continue into the payload phase
    have hrun2 := readLoop_run (hb1 + 2) 2 payload [] (by omega)
      (by simp [hlen]) 2 (List.replicate hb1 0) ⟨payload, sch1⟩ hok1
      (by omega) (by omega) (by simp) (by simp)
    simp only [pollNext, EVENT_HEADER_LEN, hdone]
    simp only [List.getD, List.get?, Option.getD, hv, if_true]
    rcases hrun2 with ⟨sch2, hok2, hle2, hdone2⟩ |
      ⟨pos3, sch2, hok2, hlt2, hop3, hpt3, hpend2⟩
    · left
      refine ⟨sch2, hok2, by dsimp only at hle2; omega, ?_⟩
      rw [hdone2]
    · right
      refine ⟨⟨pos3, [hb0, hb1], some (payload.take (pos3 - 2) ++
          List.replicate (hb1 + 2 - pos3) 0)⟩,
        ⟨payload.drop (pos3 - 2), sch2⟩, hok2,
        by dsimp only at hlt2 ⊢; omega, Or.inr ?_, ?_⟩
      · exact ⟨hop3, hpt3, rfl, rfl, rfl⟩
      · rw [hpend2]
        simp
  · -- suspended while still assembling the header
    right
    refine ⟨⟨pos2, [hb0, hb1].take pos2 ++ List.replicate (2 - pos2) 0, none⟩,
      ⟨[hb0, hb1].drop pos2 ++ payload, sch1⟩, hok1,
      by dsimp only at hlt1 ⊢; omega, Or.inl ?_, ?_⟩
    · exact ⟨hp2, rfl, rfl, rfl⟩
    · simp only [pollNext, EVENT_HEADER_LEN, hpend]
      simp

/-- One `poll_next` from state S1: same dichotomy as `pollNext_stepA`. -/
theorem pollNext_stepB (valid : Nat → Bool) (hb0 hb1 : Nat) (payload : List Nat)
    (hv : valid hb0 = true) (hlen : payload.length = hb1)
    (s : ByteStream) (t : RTransport) (hok : schedOk t.sched = true)
    (hB : invB hb0 hb1 payload s t) :
    (∃ sch2, schedOk sch2 = true ∧ sch2.length ≤ t.sched.length ∧
      pollNext valid s t = .ready (some (.ok ⟨hb0, payload⟩))
        ⟨hb1 + 2, [hb0, hb1], none⟩ ⟨[], sch2⟩) ∨
    (∃ s2 t2, schedOk t2.sched = true ∧ t2.sched.length < t.sched.length ∧
      (invA hb0 hb1 payload s2 t2 ∨ invB hb0 hb1 payload s2 t2) ∧
      pollNext valid s t = .pending s2 t2) := by
  obtain ⟨hp2, hplt, hhdr, hpar, hdat⟩ := hB
  rcases s with ⟨pos, hbuf, params⟩
  dsimp only at hp2 hplt hhdr hpar hdat
  subst hhdr
  subst hpar
  have hdone0 : readLoop 2 0 pos [hb0, hb1] t = .done pos [hb0, hb1] t :=
    readLoop_done _ _ _ _ _ (by omega)
  have hrun2 := readLoop_run (hb1 + 2) 2 payload [] (by omega)
    (by simp [hlen]) pos
    (payload.take (pos - 2) ++ List.replicate (hb1 + 2 - pos) 0) t hok
    (by omega) (by omega) (by rw [show hb1 + 2 - pos = hb1 + 2 - pos by rfl])
    (by rw [hdat]; simp)
  simp only [pollNext, EVENT_HEADER_LEN, hdone0]
  simp only [List.getD, List.get?, Option.getD, hv, if_true]
  rcases hrun2 with ⟨sch2, hok2, hle2, hdone2⟩ |
    ⟨pos3, sch2, hok2, hlt2, hop3, hpt3, hpend2⟩
  · left
    refine ⟨sch2, hok2, by omega, ?_⟩
    rw [hdone2]
  · right
    refine ⟨⟨pos3, [hb0, hb1], some (payload.take (pos3 - 2) ++
        List.replicate (hb1 + 2 - pos3) 0)⟩,
      ⟨payload.drop (pos3 - 2), sch2⟩, hok2,
      by dsimp only; omega, Or.inr ?_, ?_⟩
    · exact ⟨hop3, hpt3, rfl, rfl, rfl⟩
    · rw [hpend2]
      simp

/-- One `poll_next` from state S0 when byte 0 is not a recognized event
code: once the header completes, the call yields `BadOpcode` (never a frame),
leaving the bytes after the header untouched on the transport. -/
theorem pollNext_stepA_bad (valid : Nat → Bool) (hb0 hb1 : Nat)
    (rest : List Nat) (hv : valid hb0 = false)
    (s : ByteStream) (t : RTransport) (hok : schedOk t.sched = true)
    (hA : invA hb0 hb1 rest s t) :
    (∃ sch2, schedOk sch2 = true ∧ sch2.length ≤ t.sched.length ∧
      pollNext valid s t = .ready (some (.error .BadOpcode))
        ⟨2, [hb0, hb1], none⟩ ⟨rest, sch2⟩) ∨
    (∃ s2 t2, schedOk t2.sched = true ∧ t2.sched.length < t.sched.length ∧
      invA hb0 hb1 rest s2 t2 ∧ pollNext valid s t = .pending s2 t2) := by
  obtain ⟨hpos, hpar, hhdr, hdat⟩ := hA
  rcases s with ⟨pos, hbuf, params⟩
  dsimp only at hpos hpar hhdr hdat
  subst hpar
  have hrun := readLoop_run 2 0 [hb0, hb1] rest (by omega) (by simp)
    pos hbuf t hok (by omega) (by omega)
    (by rw [hhdr]; simp)
    (by rw [hdat]; simp)
  rcases hrun with ⟨sch1, hok1, hle1, hdone⟩ |
    ⟨pos2, sch1, hok1, hlt1, _, hp2, hpend⟩
  · left
    refine ⟨sch1, hok1, hle1, ?_⟩
    simp only [pollNext, EVENT_HEADER_LEN, hdone]
    simp [List.getD, hv]
  · right
    refine ⟨⟨pos2, [hb0, hb1].take pos2 ++ List.replicate (2 - pos2) 0, none⟩,
      ⟨[hb0, hb1].drop pos2 ++ rest, sch1⟩, hok1,
      by dsimp only at hlt1 ⊢; omega, ⟨hp2, rfl, rfl, rfl⟩, ?_⟩
    simp only [pollNext, EVENT_HEADER_LEN, hpend]
    simp

/-- Driving `poll_next` to `Ready` from any S0/S1 state of a
recognized-code frame produces exactly that frame; fuel exceeding the
schedule length always suffices. -/
theorem runRead_frame (valid : Nat → Bool) (hb0 hb1 : Nat)
    (payload : List Nat) (hv : valid hb0 = true)
    (hlen : payload.length = hb1) :
    ∀ fuel s t, schedOk t.sched = true → t.sched.length < fuel →
      (invA hb0 hb1 payload s t ∨ invB hb0 hb1 payload s t) →
      ∃ sch2, runRead valid fuel s t =
        some (some (.ok ⟨hb0, payload⟩), ⟨hb1 + 2, [hb0, hb1], none⟩,
          ⟨[], sch2⟩) := by
  intro fuel
  induction fuel with
  | zero => intro s t _ hlt _; omega
  | succ m ih =>
      intro s t hok hlt hinv
      have hstep := hinv.elim
        (pollNext_stepA valid hb0 hb1 payload hv hlen s t hok)
        (pollNext_stepB valid hb0 hb1 payload hv hlen s t hok)
      rcases hstep with ⟨sch2, hok2, _, heq⟩ |
        ⟨s2, t2, hok2, hlt2, hinv2, heq⟩
      · exact ⟨sch2, by simp only [runRead, heq]⟩
      · obtain ⟨sch2, hres⟩ := ih s2 t2 hok2 (by omega) hinv2
        exact ⟨sch2, by simp only [runRead, heq]; exact hres⟩

/-- Driving `poll_next` to `Ready` from an S0 state whose header byte 0 is
unrecognized yields `BadOpcode` and no frame. -/
theorem runRead_bad (valid : Nat → Bool) (hb0 hb1 : Nat) (rest : List Nat)
    (hv : valid hb0 = false) :
    ∀ fuel s t, schedOk t.sched = true → t.sched.length < fuel →
      invA hb0 hb1 rest s t →
      ∃ sch2, runRead valid fuel s t =
        some (some (.error .BadOpcode), ⟨2, [hb0, hb1], none⟩,
          ⟨rest, sch2⟩) := by
  intro fuel
  induction fuel with
  | zero => intro s t _ hlt _; omega
  | succ m ih =>
      intro s t hok hlt hinv
      rcases pollNext_stepA_bad valid hb0 hb1 rest hv s t hok hinv with
        ⟨sch2, hok2, _, heq⟩ | ⟨s2, t2, hok2, hlt2, hinv2, heq⟩
      · exact ⟨sch2, by simp only [runRead, heq]⟩
      · obtain ⟨sch2, hres⟩ := ih s2 t2 hok2 (by omega) hinv2
        exact ⟨sch2, by simp only [runRead, heq]; exact hres⟩

/-! ### Claim theorems: frame reader -/

/-- C2: for every sequence of suspensions and positive-length partial reads
delivering a 2-byte header `[hb0, hb1]` (recognized code `hb0`, length byte
`hb1`) followed by exactly `hb1` payload bytes, the reader driven from its
initial state produces exactly one `Ready` result: the frame whose event code
is the decoding of byte 0 and whose payload is the delivered bytes in order —
regardless of how the bytes are chunked across read calls; all `hb1 + 2`
bytes are consumed. -/
theorem C2_chunked_reads_one_frame (valid : Nat → Bool) (hb0 hb1 : Nat)
    (payload : List Nat) (sch : List ReadAct) (hv : valid hb0 = true)
    (hlen : payload.length = hb1) (hok : schedOk sch = true) :
    ∃ sch2, runRead valid (sch.length + 1) ByteStream.new
        ⟨hb0 :: hb1 :: payload, sch⟩ =
      some (some (.ok ⟨hb0, payload⟩), ⟨hb1 + 2, [hb0, hb1], none⟩,
        ⟨[], sch2⟩) := by
  apply runRead_frame valid hb0 hb1 payload hv hlen (sch.length + 1)
    ByteStream.new ⟨hb0 :: hb1 :: payload, sch⟩ hok (by dsimp only; omega)
  left
  exact ⟨by norm_num [ByteStream.new], rfl, rfl, rfl⟩

/-- C2 witness: a 2-byte payload delivered in chunks 1/1/2 with suspensions
between, under the modelled recognition set. -/
theorem C2_chunked_reads_one_frame_witness :
    ∃ sch2, runRead eventCodeValidM 7 ByteStream.new
        ⟨[0x0E, 2, 7, 9], [.deliver 1, .pending, .deliver 1, .deliver 2,
          .pending, .deliver 9]⟩ =
      some (some (.ok ⟨0x0E, [7, 9]⟩), ⟨4, [0x0E, 2], none⟩, ⟨[], sch2⟩) :=
  C2_chunked_reads_one_frame eventCodeValidM 0x0E 2 [7, 9]
    [.deliver 1, .pending, .deliver 1, .deliver 2, .pending, .deliver 9]
    (by decide) (by decide) (by decide)

/-- C6: whenever the 2-byte header completes and its first byte does not
decode to a recognized event code, the reader yields `BadOpcode`, produces no
frame, does not reinterpret the length byte, and delivers no payload to the
caller (the bytes following the header stay on the transport and the payload
buffer stays unallocated). -/
theorem C6_bad_opcode_no_frame (valid : Nat → Bool) (b0 b1 : Nat)
    (rest : List Nat) (sch : List ReadAct) (hv : valid b0 = false)
    (hok : schedOk sch = true) :
    ∃ sch2, runRead valid (sch.length + 1) ByteStream.new
        ⟨b0 :: b1 :: rest, sch⟩ =
      some (some (.error .BadOpcode), ⟨2, [b0, b1], none⟩, ⟨rest, sch2⟩) := by
  apply runRead_bad valid b0 b1 rest hv (sch.length + 1)
    ByteStream.new ⟨b0 :: b1 :: rest, sch⟩ hok (by dsimp only; omega)
  exact ⟨by norm_num [ByteStream.new], rfl, rfl, rfl⟩

/-- C6 witness: byte `0x13` is not in the modelled recognition set; the
reader errors with `BadOpcode` and the three bytes after the header survive
untouched. -/
theorem C6_bad_opcode_no_frame_witness :
    ∃ sch2, runRead eventCodeValidM 3 ByteStream.new
        ⟨[0x13, 3, 1, 2, 3], [.pending, .deliver 5]⟩ =
      some (some (.error .BadOpcode), ⟨2, [0x13, 3], none⟩,
        ⟨[1, 2, 3], sch2⟩) :=
  C6_bad_opcode_no_frame eventCodeValidM 0x13 3 [1, 2, 3]
    [.pending, .deliver 5] (by decide) (by decide)

/-- C5: a read call reporting 0 bytes transferred — mid-header or
mid-payload — makes `poll_next` yield `Ready(None)` ("no further frames"),
not a `StreamError`. -/
theorem C5_zero_read_yields_none (valid : Nat → Bool) (s : ByteStream)
    (t : RTransport) (n : Nat) (r : List ReadAct) :
    (t.sched = .deliver n :: r → t.data = [] → s.pos < 2 →
      pollNext valid s t = .ready none s ⟨[], r⟩) ∧
    (t.sched = .deliver n :: r → t.data = [] → 2 ≤ s.pos →
      valid (s.header_buf.getD 0 0) = true →
      s.pos < s.header_buf.getD 1 0 + 2 →
      ∃ pb, pollNext valid s t = .ready none
        ⟨s.pos, s.header_buf, some pb⟩ ⟨[], r⟩) := by
  rcases s with ⟨pos, hbuf, params⟩
  rcases t with ⟨data, sched⟩
  constructor
  · intro hs hd hpos
    dsimp only at hs hd
    subst hs
    subst hd
    have he := readLoop_deliver_eof 2 0 pos n hbuf [] r hpos (by simp)
    simp only [pollNext, EVENT_HEADER_LEN, he]
  · intro hs hd hpos hv hlen
    dsimp only at hs hd hv hlen hpos ⊢
    subst hs
    subst hd
    have hd0 : readLoop 2 0 pos hbuf ⟨[], .deliver n :: r⟩ =
        .done pos hbuf ⟨[], .deliver n :: r⟩ :=
      readLoop_done _ _ _ _ _ (by omega)
    rcases params with _ | pb
    · refine ⟨List.replicate (hbuf.getD 1 0) 0, ?_⟩
      have he := readLoop_deliver_eof (hbuf.getD 1 0 + 2) 2 pos n
        (List.replicate (hbuf.getD 1 0) 0) [] r (by omega) (by simp)
      simp only [pollNext, EVENT_HEADER_LEN, hd0, hv, if_true, he]
    · refine ⟨pb, ?_⟩
      have he := readLoop_deliver_eof (hbuf.getD 1 0 + 2) 2 pos n pb [] r
        (by omega) (by simp)
      simp only [pollNext, EVENT_HEADER_LEN, hd0, hv, if_true, he]

/-- C5 witness: a zero-byte read mid-header (position 1) and mid-payload
(position 2 of a recognized frame with length byte 1). -/
theorem C5_zero_read_yields_none_witness :
    pollNext eventCodeValidM ⟨1, [0x0E, 0], none⟩ ⟨[], [.deliver 5]⟩ =
      .ready none ⟨1, [0x0E, 0], none⟩ ⟨[], []⟩ ∧
    ∃ pb, pollNext eventCodeValidM ⟨2, [0x0E, 1], none⟩ ⟨[], [.deliver 5]⟩ =
      .ready none ⟨2, [0x0E, 1], some pb⟩ ⟨[], []⟩ := by
  constructor
  · exact (C5_zero_read_yields_none eventCodeValidM ⟨1, [0x0E, 0], none⟩
      ⟨[], [.deliver 5]⟩ 5 []).1 rfl rfl (by decide)
  · exact (C5_zero_read_yields_none eventCodeValidM ⟨2, [0x0E, 1], none⟩
      ⟨[], [.deliver 5]⟩ 5 []).2 rfl rfl (by decide) (by decide) (by decide)

/-- C1 (code bug): completing a frame does NOT reset the reader to S0.
`poll_next` only takes the payload buffer; `pos` stays at `len + 2` and the
stale header is kept, so the claimed reset to "awaiting header" fails and the
very next poll re-decodes the old header and emits a spurious zero-filled
frame without reading the transport at all.  Concretely: feeding
`[0x0E, 0x01, 0xAA]` emits `(0x0E, [0xAA])` but leaves `pos = 3 ≠ 0`; a
second poll emits `(0x0E, [0x00])` from an empty transport. -/
theorem C1_no_reset_after_frame :
    pollNext eventCodeValidM ByteStream.new ⟨[0x0E, 0x01, 0xAA], []⟩ =
      .ready (some (.ok ⟨0x0E, [0xAA]⟩)) ⟨3, [0x0E, 0x01], none⟩ ⟨[], []⟩ ∧
    (3 : Nat) ≠ ByteStream.new.pos ∧
    pollNext eventCodeValidM ⟨3, [0x0E, 0x01], none⟩ ⟨[], []⟩ =
      .ready (some (.ok ⟨0x0E, [0x00]⟩)) ⟨3, [0x0E, 0x01], none⟩ ⟨[], []⟩ := by
  refine ⟨?_, by decide, ?_⟩
  · simp [pollNext, ByteStream.new, readLoop, tRead, writeAt,
      EVENT_HEADER_LEN, eventCodeValidM, EventCode.CommandComplete,
      EventCode.CommandStatus, List.replicate]
  · simp [pollNext, readLoop, tRead, writeAt, EVENT_HEADER_LEN,
      eventCodeValidM, EventCode.CommandComplete, EventCode.CommandStatus,
      List.replicate]

/-- C9 witness: the layout at a concrete filter value. -/
theorem C9_filter_pack_layout_witness :
    (Filter.pack ⟨0x00000012, 0x0000C000, 0x00000000, 0x0C03⟩).length = 14 ∧
      Filter.pack ⟨0x00000012, 0x0000C000, 0x00000000, 0x0C03⟩ =
        [0x12, 0, 0, 0, 0, 0xC0, 0, 0, 0, 0, 0, 0, 0x03, 0x0C] := by
  refine ⟨(C9_filter_pack_layout ⟨0x00000012, 0x0000C000, 0x00000000, 0x0C03⟩
    (by constructor <;> norm_num [Filter.wf])).1, by norm_num [Filter.pack,
      u32ToLEBytes, u16ToLEBytes]⟩

/-! ### Frame-writer lemmas -/

theorem bwPoll_wpending (bw : ByteWrite) (r : List WriteAct)
    (fs : List FlushAct) (w0 : Nat) (h : bw.pos < bw.len) :
    bwPoll bw ⟨.pending :: r, fs⟩ w0 = .pending bw ⟨r, fs⟩ (w0 + 1) 0 := by
  rw [bwPoll]
  simp [h, tWrite]

theorem bwPoll_wioerr (bw : ByteWrite) (r : List WriteAct)
    (fs : List FlushAct) (w0 : Nat) (h : bw.pos < bw.len) :
    bwPoll bw ⟨.ioerr :: r, fs⟩ w0 =
      .ready (.error .IOError) bw ⟨r, fs⟩ (w0 + 1) 0 := by
  rw [bwPoll]
  simp [h, tWrite]

theorem bwPoll_waccept (bw : ByteWrite) (n : Nat) (r : List WriteAct)
    (fs : List FlushAct) (w0 : Nat) (h : bw.pos < bw.len) :
    bwPoll bw ⟨.accept n :: r, fs⟩ w0 =
      bwPoll ⟨bw.data, bw.pos + min n (bw.len - bw.pos), bw.len⟩
        ⟨r, fs⟩ (w0 + 1) := by
  conv_lhs => rw [bwPoll]
  simp [h, tWrite]

theorem bwPoll_wcoop (bw : ByteWrite) (fs : List FlushAct) (w0 : Nat)
    (h : bw.pos < bw.len) :
    bwPoll bw ⟨[], fs⟩ w0 =
      bwPoll ⟨bw.data, bw.pos + (bw.len - bw.pos), bw.len⟩ ⟨[], fs⟩ (w0 + 1) := by
  conv_lhs => rw [bwPoll]
  simp [h, tWrite]

theorem bwPoll_fpending (bw : ByteWrite) (ws : List WriteAct)
    (r : List FlushAct) (w0 : Nat) (h : ¬bw.pos < bw.len) :
    bwPoll bw ⟨ws, .pending :: r⟩ w0 = .pending bw ⟨ws, r⟩ w0 1 := by
  rw [bwPoll]
  simp [h, tFlush]

theorem bwPoll_fioerr (bw : ByteWrite) (ws : List WriteAct)
    (r : List FlushAct) (w0 : Nat) (h : ¬bw.pos < bw.len) :
    bwPoll bw ⟨ws, .ioerr :: r⟩ w0 =
      .ready (.error .IOError) bw ⟨ws, r⟩ w0 1 := by
  rw [bwPoll]
  simp [h, tFlush]

theorem bwPoll_fok (bw : ByteWrite) (ws : List WriteAct)
    (r : List FlushAct) (w0 : Nat) (h : ¬bw.pos < bw.len) :
    bwPoll bw ⟨ws, .flushOk :: r⟩ w0 = .ready (.ok ()) bw ⟨ws, r⟩ w0 1 := by
  rw [bwPoll]
  simp [h, tFlush]

theorem bwPoll_fcoop (bw : ByteWrite) (ws : List WriteAct) (w0 : Nat)
    (h : ¬bw.pos < bw.len) :
    bwPoll bw ⟨ws, []⟩ w0 = .ready (.ok ()) bw ⟨ws, []⟩ w0 1 := by
  rw [bwPoll]
  simp [h, tFlush]

/-- What every `Ready` outcome of one `ByteWrite::poll` call satisfies, for
a writer whose cursor has not passed `len`: the cursor only advances and
never passes `len`; at most one flush; success means the frame fully drained
and exactly one flush; a flush happened only once the frame was fully
drained; a `Ready` with the cursor short of `len` is a write failure
(`IOError`) with the flush never attempted. -/
theorem bwPoll_ready_spec :
    ∀ bw wt w0, bw.pos ≤ bw.len → ∀ res bw2 wt2 w f,
      bwPoll bw wt w0 = .ready res bw2 wt2 w f →
      bw.pos ≤ bw2.pos ∧ bw2.pos ≤ bw.len ∧ bw2.len = bw.len ∧
      f ≤ 1 ∧
      (res = .ok () → bw2.pos = bw.len ∧ f = 1) ∧
      (f = 1 → bw2.pos = bw.len) ∧
      (bw2.pos < bw.len → res = .error .IOError ∧ f = 0) := by
  intro bw wt w0
  induction bw, wt, w0 using bwPoll.induct with
  | case1 bw wt w0 hlt wt' hw =>
      intro hpl res bw2 wt2 w f heq
      rcases wt with ⟨ws, fs⟩
      rcases ws with _ | ⟨a, r⟩
      · simp [tWrite] at hw
      · rcases a with _ | _ | m
        · rw [bwPoll_wpending _ _ _ _ hlt] at heq
          injection heq
        · simp only [tWrite] at hw
          injection hw
        · simp only [tWrite] at hw
          injection hw
  | case2 bw wt w0 hlt wt' hw =>
      intro hpl res bw2 wt2 w f heq
      rcases wt with ⟨ws, fs⟩
      rcases ws with _ | ⟨a, r⟩
      · simp [tWrite] at hw
      · rcases a with _ | _ | m
        · simp only [tWrite] at hw
          injection hw
        · rw [bwPoll_wioerr _ _ _ _ hlt] at heq
          injection heq with h1 h2 h3 h4 h5
          subst h1
          subst h2
          subst h3
          subst h5
          refine ⟨le_refl _, hpl, rfl, by omega, by simp, ?_, ?_⟩
          · intro h
            omega
          · intro _
            exact ⟨rfl, rfl⟩
        · simp only [tWrite] at hw
          injection hw
  | case3 bw wt w0 hlt n wt' hw ih =>
      intro hpl res bw2 wt2 w f heq
      rcases wt with ⟨ws, fs⟩
      rcases ws with _ | ⟨a, r⟩
      · simp only [tWrite] at hw
        injection hw with hn hwt
        subst hn
        subst hwt
        rw [bwPoll_wcoop _ _ _ hlt] at heq
        have := ih (by dsimp only; omega) res bw2 wt2 w f heq
        dsimp only at this
        obtain ⟨i1, i2, i3, i4, i5, i6, i7⟩ := this
        refine ⟨by omega, i2, i3, i4, ?_, i6, ?_⟩
        · intro hok
          obtain ⟨j1, j2⟩ := i5 hok
          exact ⟨by omega, j2⟩
        · intro h2
          exact i7 h2
      · rcases a with _ | _ | m
        · simp only [tWrite] at hw
          injection hw
        · simp only [tWrite] at hw
          injection hw
        · simp only [tWrite] at hw
          injection hw with hn hwt
          subst hn
          subst hwt
          rw [bwPoll_waccept _ _ _ _ _ hlt] at heq
          have := ih (by dsimp only; omega) res bw2 wt2 w f heq
          dsimp only at this
          obtain ⟨i1, i2, i3, i4, i5, i6, i7⟩ := this
          refine ⟨by omega, i2, i3, i4, ?_, i6, ?_⟩
          · intro hok
            obtain ⟨j1, j2⟩ := i5 hok
            exact ⟨by omega, j2⟩
          · intro h2
            exact i7 h2
  | case4 bw wt w0 hnlt wt' hf =>
      intro hpl res bw2 wt2 w f heq
      rcases wt with ⟨ws, fs⟩
      rcases fs with _ | ⟨a, r⟩
      · simp [tFlush] at hf
      · rcases a with _ | _ | _
        · rw [bwPoll_fpending _ _ _ _ hnlt] at heq
          injection heq
        · simp only [tFlush] at hf
          injection hf
        · simp only [tFlush] at hf
          injection hf
  | case5 bw wt w0 hnlt wt' hf =>
      intro hpl res bw2 wt2 w f heq
      rcases wt with ⟨ws, fs⟩
      rcases fs with _ | ⟨a, r⟩
      · simp [tFlush] at hf
      · rcases a with _ | _ | _
        · simp only [tFlush] at hf
          injection hf
        · rw [bwPoll_fioerr _ _ _ _ hnlt] at heq
          injection heq with h1 h2 h3 h4 h5
          subst h1
          subst h2
          subst h3
          subst h5
          refine ⟨le_refl _, hpl, rfl, by omega, by simp, ?_, ?_⟩
          · intro _
            omega
          · intro h
            omega
        · simp only [tFlush] at hf
          injection hf
  | case6 bw wt w0 hnlt wt' hf =>
      intro hpl res bw2 wt2 w f heq
      rcases wt with ⟨ws, fs⟩
      rcases fs with _ | ⟨a, r⟩
      · rw [bwPoll_fcoop _ _ _ hnlt] at heq
        injection heq with h1 h2 h3 h4 h5
        subst h1
        subst h2
        subst h3
        subst h5
        refine ⟨le_refl _, hpl, rfl, by omega, ?_, ?_, ?_⟩
        · intro _
          exact ⟨by omega, rfl⟩
        · intro _
          omega
        · intro h
          omega
      · rcases a with _ | _ | _
        · simp only [tFlush] at hf
          injection hf
        · simp only [tFlush] at hf
          injection hf
        · rw [bwPoll_fok _ _ _ _ hnlt] at heq
          injection heq with h1 h2 h3 h4 h5
          subst h1
          subst h2
          subst h3
          subst h5
          refine ⟨le_refl _, hpl, rfl, by omega, ?_, ?_, ?_⟩
          · intro _
            exact ⟨by omega, rfl⟩
          · intro _
            omega
          · intro h
            omega

/-! ### Claim theorems: frame writer and send_command -/

/-- C4: the Frame Writer repeatedly writes the remaining slice `[pos, len)`,
advancing `pos` by exactly what each write reports, flushes only once
`pos = len`, maps any write failure to `IOError` without ever flushing, and
maps flush failure to `IOError` — and concretely, a 10-byte frame against a
transport accepting at most 3 bytes per write completes with exactly
4 write attempts (3+3+3+1) and one successful flush, while a failure on the
3rd write yields `IOError` after 3 write attempts and no flush, and a flush
failure after a full drain yields `IOError`. -/
theorem C4_frame_writer :
    (∀ bw wt w0, bw.pos ≤ bw.len → ∀ res bw2 wt2 w f,
      bwPoll bw wt w0 = .ready res bw2 wt2 w f →
      bw.pos ≤ bw2.pos ∧ bw2.pos ≤ bw.len ∧ bw2.len = bw.len ∧
      f ≤ 1 ∧
      (res = .ok () → bw2.pos = bw.len ∧ f = 1) ∧
      (f = 1 → bw2.pos = bw.len) ∧
      (bw2.pos < bw.len → res = .error .IOError ∧ f = 0)) ∧
    bwPoll ⟨List.replicate 260 0, 0, 10⟩
        ⟨[.accept 3, .accept 3, .accept 3, .accept 3], [.flushOk]⟩ 0 =
      .ready (.ok ()) ⟨List.replicate 260 0, 10, 10⟩ ⟨[], []⟩ 4 1 ∧
    bwPoll ⟨List.replicate 260 0, 0, 10⟩
        ⟨[.accept 3, .accept 3, .ioerr], [.flushOk]⟩ 0 =
      .ready (.error .IOError) ⟨List.replicate 260 0, 6, 10⟩
        ⟨[], [.flushOk]⟩ 3 0 ∧
    bwPoll ⟨List.replicate 260 0, 0, 10⟩
        ⟨[.accept 3, .accept 3, .accept 3, .accept 3], [.ioerr]⟩ 0 =
      .ready (.error .IOError) ⟨List.replicate 260 0, 10, 10⟩ ⟨[], []⟩ 4 1 := by
  refine ⟨bwPoll_ready_spec, ?_, ?_, ?_⟩
  · rw [bwPoll_waccept _ _ _ _ _ (by norm_num)]
    norm_num
    rw [bwPoll_waccept _ _ _ _ _ (by norm_num)]
    norm_num
    rw [bwPoll_waccept _ _ _ _ _ (by norm_num)]
    norm_num
    rw [bwPoll_waccept _ _ _ _ _ (by norm_num)]
    norm_num
    rw [bwPoll_fok _ _ _ _ (by norm_num)]
  · rw [bwPoll_waccept _ _ _ _ _ (by norm_num)]
    norm_num
    rw [bwPoll_waccept _ _ _ _ _ (by norm_num)]
    norm_num
    rw [bwPoll_wioerr _ _ _ _ (by norm_num)]
  · rw [bwPoll_waccept _ _ _ _ _ (by norm_num)]
    norm_num
    rw [bwPoll_waccept _ _ _ _ _ (by norm_num)]
    norm_num
    rw [bwPoll_waccept _ _ _ _ _ (by norm_num)]
    norm_num
    rw [bwPoll_waccept _ _ _ _ _ (by norm_num)]
    norm_num
    rw [bwPoll_fioerr _ _ _ _ (by norm_num)]

/-- C4 witness: the general `Ready` specification applied to the concrete
success scenario (10-byte frame, at most 3 bytes accepted per write). -/
theorem C4_frame_writer_witness :
    (0 : Nat) ≤ 10 ∧ (10 : Nat) ≤ 10 ∧ (10 : Nat) = 10 ∧ (1 : Nat) ≤ 1 ∧
      ((Except.ok () : Except StreamError Unit) = .ok () →
        (10 : Nat) = 10 ∧ (1 : Nat) = 1) := by
  have h := C4_frame_writer.1 ⟨List.replicate 260 0, 0, 10⟩
    ⟨[.accept 3, .accept 3, .accept 3, .accept 3], [.flushOk]⟩ 0
    (by norm_num) (.ok ()) ⟨List.replicate 260 0, 10, 10⟩ ⟨[], []⟩ 4 1
    C4_frame_writer.2.1
  exact ⟨h.1, h.2.1, h.2.2.1, h.2.2.2.1, fun _ => h.2.2.2.2.1 rfl⟩

/-- The filter `send_command` builds, written as an explicit value:
type mask `{Command, Event}` = 18, event-mask word 0
`{CommandStatus, CommandComplete}` = 49152, word 1 empty, and the command's
opcode. -/
theorem send_filter_eq (op : Nat) :
    { ((((Filter.default).enable_type .Command).enable_type
          .Event).enable_event EventCode.CommandStatus).enable_event
        EventCode.CommandComplete with
      opcode := op } = (⟨18, 49152, 0, op⟩ : Filter) := by
  simp [Filter.default, Filter.enable_type, Filter.enable_event,
    PacketType.toNat, EventCode.CommandStatus, EventCode.CommandComplete]

/-- C3: for every command whose `full_len` fits the stack buffer, if packing
succeeds then `send_command` installs — before anything is written to the
transport — a filter with packet types Command and Event enabled, events
CommandStatus and CommandComplete enabled, and the command's opcode; and if
packing fails it returns `CommandError` with no transport interaction at
all. -/
theorem C3_send_command_filter (cmd : CommandM)
    (sfRes : Filter → Except StreamError Unit)
    (hlen : cmd.full_len ≤ FULL_COMMAND_MAX_LEN) :
    (∀ e, cmd.packed = .error e →
      send_command cmd sfRes = some ([], .error (.CommandError e))) ∧
    (∀ bs, cmd.packed = .ok bs → ∃ F tr res,
      send_command cmd sfRes = some (tr, res) ∧
      tr.head? = some (.setFilter F) ∧
      F.get_type .Command = true ∧ F.get_type .Event = true ∧
      F.get_event EventCode.CommandStatus = true ∧
      F.get_event EventCode.CommandComplete = true ∧
      F.opcode = cmd.opcode ∧
      (∀ w, Action.writeBytes w ∈ tr →
        tr = [.setFilter F, .clearRead, .writeBytes w])) := by
  constructor
  · intro e he
    simp only [send_command, hlen, if_pos, he]
  · intro bs hbs
    have hgt1 : Filter.get_type ⟨18, 49152, 0, cmd.opcode⟩ .Command = true := by
      rw [show Filter.get_type ⟨18, 49152, 0, cmd.opcode⟩ .Command =
        ((18 : Nat) &&& (1 <<< 1) != 0) from rfl]
      decide
    have hgt2 : Filter.get_type ⟨18, 49152, 0, cmd.opcode⟩ .Event = true := by
      rw [show Filter.get_type ⟨18, 49152, 0, cmd.opcode⟩ .Event =
        ((18 : Nat) &&& (1 <<< 4) != 0) from rfl]
      decide
    have hge1 : Filter.get_event ⟨18, 49152, 0, cmd.opcode⟩
        EventCode.CommandStatus = true := by
      rw [show Filter.get_event ⟨18, 49152, 0, cmd.opcode⟩
        EventCode.CommandStatus = ((49152 : Nat) &&& (1 <<< 15) != 0) from
          rfl]
      decide
    have hge2 : Filter.get_event ⟨18, 49152, 0, cmd.opcode⟩
        EventCode.CommandComplete = true := by
      rw [show Filter.get_event ⟨18, 49152, 0, cmd.opcode⟩
        EventCode.CommandComplete = ((49152 : Nat) &&& (1 <<< 14) != 0) from
          rfl]
      decide
    have hwr : (ByteWrite.new ((bs ++ List.replicate
        (cmd.full_len - bs.length) 0).take cmd.full_len)).isSome := by
      rw [ByteWrite.new, if_pos]
      · rfl
      · simp only [List.length_take]
        omega
    refine ⟨⟨18, 49152, 0, cmd.opcode⟩, ?_⟩
    simp only [send_command, hlen, if_pos, hbs, send_filter_eq]
    rcases hsf : sfRes ⟨18, 49152, 0, cmd.opcode⟩ with e | u
    · refine ⟨_, _, rfl, by first | rfl | trivial, hgt1, hgt2, hge1, hge2,
        by first | rfl | trivial, ?_⟩
      intro w hw
      simp at hw
    · rcases hbw : ByteWrite.new ((bs ++ List.replicate
          (cmd.full_len - bs.length) 0).take cmd.full_len) with _ | bw
      · rw [hbw] at hwr
        simp at hwr
      · rw [hbw]
        refine ⟨_, _, rfl, by first | rfl | trivial, hgt1, hgt2, hge1, hge2,
          by first | rfl | trivial, ?_⟩
        intro w hw
        simp only [List.mem_cons, List.not_mem_nil, or_false] at hw
        rcases hw with h | h | h
        · cases h
        · cases h
        · injection h with h
          rw [h]

/-- C3 witness: a concrete packable 4-byte command with opcode `0x0C03`
against a transport accepting the filter. -/
theorem C3_send_command_filter_witness :
    ∃ F tr res,
      send_command ⟨0x0C03, 4, .ok [1, 2, 3, 4]⟩ (fun _ => .ok ()) =
          some (tr, res) ∧
      tr.head? = some (.setFilter F) ∧
      F.get_type .Command = true ∧ F.get_type .Event = true ∧
      F.get_event EventCode.CommandStatus = true ∧
      F.get_event EventCode.CommandComplete = true ∧
      F.opcode = 0x0C03 ∧
      (∀ w, Action.writeBytes w ∈ tr →
        tr = [.setFilter F, .clearRead, .writeBytes w]) :=
  (C3_send_command_filter ⟨0x0C03, 4, .ok [1, 2, 3, 4]⟩ (fun _ => .ok ())
    (by norm_num [FULL_COMMAND_MAX_LEN])).2 [1, 2, 3, 4] rfl

/-- C10: `send_command` slices the fixed `FULL_COMMAND_MAX_LEN` stack buffer
by the command's reported `full_len` without a bounds check: commands with
`full_len ≤ FULL_COMMAND_MAX_LEN` are processed panic-free (the slicing and
the copy in `ByteWrite::new` stay in bounds), while a command reporting
`full_len > FULL_COMMAND_MAX_LEN` panics rather than producing a
`CommandError`. -/
theorem C10_full_len_slice_bound (cmd : CommandM)
    (sfRes : Filter → Except StreamError Unit) :
    (cmd.full_len ≤ FULL_COMMAND_MAX_LEN → (send_command cmd sfRes).isSome) ∧
    (FULL_COMMAND_MAX_LEN < cmd.full_len → send_command cmd sfRes = none) := by
  constructor
  · intro hle
    rcases hbs : cmd.packed with e | bs
    · simp [send_command, hle, hbs]
    · have hwr : (ByteWrite.new ((bs ++ List.replicate
          (cmd.full_len - bs.length) 0).take cmd.full_len)).isSome := by
        rw [ByteWrite.new, if_pos]
        · rfl
        · simp only [List.length_take]
          omega
      simp only [send_command, hle, if_pos, hbs, send_filter_eq]
      rcases hsf : sfRes ⟨18, 49152, 0, cmd.opcode⟩ with e | u
      · rfl
      · rcases hbw : ByteWrite.new ((bs ++ List.replicate
            (cmd.full_len - bs.length) 0).take cmd.full_len) with _ | bw
        · rw [hbw] at hwr
          simp at hwr
        · rw [hbw]
          rfl
  · intro hgt
    simp [send_command, show ¬cmd.full_len ≤ FULL_COMMAND_MAX_LEN by omega]

/-- C10 witness: a 3-byte command is processed; a command claiming 300 bytes
panics (no `CommandError`). -/
theorem C10_full_len_slice_bound_witness :
    (send_command ⟨0, 3, .ok [1, 2, 3]⟩ (fun _ => .ok ())).isSome ∧
      send_command ⟨0, 300, .ok []⟩ (fun _ => .ok ()) = none :=
  ⟨(C10_full_len_slice_bound ⟨0, 3, .ok [1, 2, 3]⟩ (fun _ => .ok ())).1
      (by norm_num [FULL_COMMAND_MAX_LEN]),
    (C10_full_len_slice_bound ⟨0, 300, .ok []⟩ (fun _ => .ok ())).2
      (by norm_num [FULL_COMMAND_MAX_LEN])⟩

end BTLE
